import Mathlib

/-!
Verification of the JinoFin budget-aware transaction aggregation layer.

The definitions below are a shallow embedding of the JavaScript source:
`src/src/utils/format.js` (amount parser, month range resolver) and
`src/src/App.jsx` (CSV import normalization, export, aggregation, budget
projection, settings save).  JavaScript numbers are modelled as exact
rationals (`ℚ`, with `none : Option ℚ` standing for `NaN`); strings are
Lean strings.  External libraries (papaparse, dayjs) are modelled by
concrete functions whose doc comments state the modelling scope.
-/

namespace JinoFin

/-! ## Helpers modelling JavaScript string operations -/

/-- JS `String.prototype.trim`, modelled structurally: drop whitespace
from both ends. -/
def charTrim (l : List Char) : List Char :=
  ((l.dropWhile Char.isWhitespace).reverse.dropWhile Char.isWhitespace).reverse

/-- String form of `charTrim`. -/
def jsTrim (s : String) : String :=
  String.mk (charTrim s.data)

/-- JS `toLowerCase`, modelled characterwise (the field names it is applied
to are ASCII). -/
def strToLower (s : String) : String :=
  String.mk (s.data.map Char.toLower)

/-- JS `toUpperCase`, modelled characterwise. -/
def strToUpper (s : String) : String :=
  String.mk (s.data.map Char.toUpper)

/-- Replace the first occurrence of a character, like the two-argument JS
string `replace` with a plain (non-global) pattern. -/
def replaceFirst : List Char → Char → Char → List Char
  | [], _, _ => []
  | x :: xs, a, b => if x = a then b :: xs else x :: replaceFirst xs a b

/-- Split on a character, like the JS `split`: always at least one part. -/
def splitOnChar (c : Char) : List Char → List (List Char)
  | [] => [[]]
  | x :: xs =>
    if x = c then [] :: splitOnChar c xs
    else
      match splitOnChar c xs with
      | p :: ps => (x :: p) :: ps
      | [] => [[x]]

/-! ## Amount Parser (src/src/utils/format.js) -/

/-- Whitespace stage of `normalizeAmountString`:
`String(val).trim().replace(/\s/g, '')` (format.js line 5). -/
def wsStrip (s : String) : List Char :=
  (charTrim s.data).filter (fun c => !c.isWhitespace)

/-- Separator disambiguation stage of `normalizeAmountString`
(format.js lines 6-9): with both separators present every dot is removed
and the first comma becomes a dot; otherwise the first comma becomes a dot. -/
def sepStage (v : List Char) : List Char :=
  if v.contains ',' && v.contains '.' then replaceFirst (v.filter (fun c => c ≠ '.')) ',' '.'
  else replaceFirst v ',' '.'

/-- Character stripping stage: `v.replace(/[^0-9.\-]/g, '')`
(format.js line 10). -/
def stripStage (v : List Char) : List Char :=
  v.filter (fun c => c.isDigit || c = '.' || c = '-')

/-- Decimal point collapsing stage (format.js lines 11-12): with more than
two dot-separated parts, keep the first part, one dot, and the remaining
parts joined. -/
def collapseStage (v : List Char) : List Char :=
  match splitOnChar '.' v with
  | p :: ps => if ps.length > 1 then p ++ '.' :: ps.flatten else v
  | [] => v

/-- Model of `normalizeAmountString` (format.js lines 3-14).  A JS
`null`/`undefined` argument is `none` and yields the empty string. -/
def normalizeAmountString (val : Option String) : String :=
  match val with
  | none => ""
  | some s => String.mk (collapseStage (stripStage (sepStage (wsStrip s))))

/-- Value of a digit list read in base 10. -/
def digitsVal (l : List Char) : Nat :=
  l.foldl (fun acc c => 10 * acc + (c.toNat - 48)) 0

/-- Model of JS `parseFloat` on the character set `normalizeAmountString`
emits (digits, dot, minus): an optional sign, then digits with an optional
fractional part; `none` models `NaN` (no digit consumed).  Values are
exact rationals, so float rounding and overflow to infinity are outside
the model. -/
def parseFloatM (s : String) : Option ℚ :=
  let signed : Bool × List Char :=
    match s.data with
    | '-' :: rest => (true, rest)
    | '+' :: rest => (false, rest)
    | cs => (false, cs)
  let cs := signed.2
  let intPart := cs.takeWhile Char.isDigit
  let rest := cs.dropWhile Char.isDigit
  let fracPart :=
    match rest with
    | '.' :: rest2 => rest2.takeWhile Char.isDigit
    | _ => []
  if intPart.isEmpty && fracPart.isEmpty then none
  else
    let mag : ℚ := (digitsVal intPart : ℚ) + (digitsVal fracPart : ℚ) / ((10 : ℚ) ^ fracPart.length)
    some (if signed.1 then -mag else mag)

/-- Model of `parseAmountNumber` (format.js lines 16-20): `parseFloat` of
the normalized string; the `Number.isFinite` guard maps a failed parse to
the `NaN` sentinel, modelled as `none` (a parsed rational is always
finite). -/
def parseAmountNumber (val : Option String) : Option ℚ :=
  match parseFloatM (normalizeAmountString val) with
  | some q => some q
  | none => none

/-! ## Date Range Resolver (src/src/utils/format.js, monthRangeISO) -/

/-- Local calendar date-time down to milliseconds, the view of a dayjs
value before it is rendered to an absolute instant. -/
structure LocalDT where
  year : Nat
  month : Nat
  day : Nat
  hour : Nat
  minute : Nat
  second : Nat
  ms : Nat
  deriving DecidableEq, Repr

/-- Gregorian leap year rule, as implemented by dayjs month arithmetic. -/
def isLeap (y : Nat) : Bool :=
  (y % 4 = 0 && y % 100 ≠ 0) || y % 400 = 0

/-- Number of days of a calendar month, as used by dayjs `endOf('month')`. -/
def daysInMonth (y m : Nat) : Nat :=
  if m = 2 then (if isLeap y then 29 else 28)
  else if m = 4 || m = 6 || m = 9 || m = 11 then 30
  else 31

/-- Parse a `YYYY-MM` month key: four digits, a dash, two digits naming a
month between 01 and 12.  Other shapes are rejected (dayjs would produce
an invalid date for them). -/
def parseMonthKey (s : String) : Option (Nat × Nat) :=
  match s.data with
  | [y1, y2, y3, y4, sep, m1, m2] =>
    if sep = '-' && y1.isDigit && y2.isDigit && y3.isDigit && y4.isDigit
        && m1.isDigit && m2.isDigit then
      let y := digitsVal [y1, y2, y3, y4]
      let m := digitsVal [m1, m2]
      if 1 ≤ m && m ≤ 12 then some (y, m) else none
    else none
  | _ => none

/-- Model of `monthRangeISO` (format.js lines 34-38):
`dayjs(monthKey + '-01').startOf('day')` is the first local instant of the
month and `dayjs(monthKey).endOf('month').endOf('day')` the last one.  The
final `toISOString` rendering through the host timezone is external; the
model returns the two local date-times it would render. -/
def monthRangeISO (monthKey : String) : Option (LocalDT × LocalDT) :=
  match parseMonthKey monthKey with
  | none => none
  | some (y, m) =>
    some (⟨y, m, 1, 0, 0, 0, 0⟩, ⟨y, m, daysInMonth y m, 23, 59, 59, 999⟩)

/-! ## Date-literal resolver (src/src/App.jsx, parseDateToISO) -/

/-- Components a strict dayjs format match yields (hours and minutes zero
for the date-only patterns). -/
structure DateParts where
  year : Nat
  month : Nat
  day : Nat
  hour : Nat
  minute : Nat
  deriving DecidableEq, Repr

/-- Calendar validity used by the strict dayjs matchers. -/
def validYMD (y m d : Nat) : Bool :=
  1 ≤ m && m ≤ 12 && 1 ≤ d && d ≤ daysInMonth y m

/-- All characters of the list are decimal digits. -/
def allDigits (l : List Char) : Bool :=
  l.all Char.isDigit

/-- Strict matcher for a ten-character `AAAA sep BB sep CC` date pattern;
`pick` turns the three numeric fields into year, month and day. -/
def matchD10 (sep : Char) (pick : Nat → Nat → Nat → Nat × Nat × Nat)
    (l : List Char) : Option DateParts :=
  if l.length = 10 then
    let a := [l.getD 0 ' ', l.getD 1 ' ', l.getD 2 ' ', l.getD 3 ' ']
    let b := [l.getD 5 ' ', l.getD 6 ' ']
    let c := [l.getD 8 ' ', l.getD 9 ' ']
    if l.getD 4 ' ' = sep && l.getD 7 ' ' = sep && allDigits (a ++ b ++ c) then
      let parts := pick (digitsVal a) (digitsVal b) (digitsVal c)
      if validYMD parts.1 parts.2.1 parts.2.2 then
        some ⟨parts.1, parts.2.1, parts.2.2, 0, 0⟩
      else none
    else none
  else none

/-- Strict matcher for a ten-character `DD sep MM sep YYYY`-style pattern;
`pick` turns the two two-digit fields and the four-digit field into year,
month and day. -/
def matchD10R (sep : Char) (pick : Nat → Nat → Nat → Nat × Nat × Nat)
    (l : List Char) : Option DateParts :=
  if l.length = 10 then
    let a := [l.getD 0 ' ', l.getD 1 ' ']
    let b := [l.getD 3 ' ', l.getD 4 ' ']
    let c := [l.getD 6 ' ', l.getD 7 ' ', l.getD 8 ' ', l.getD 9 ' ']
    if l.getD 2 ' ' = sep && l.getD 5 ' ' = sep && allDigits (a ++ b ++ c) then
      let parts := pick (digitsVal a) (digitsVal b) (digitsVal c)
      if validYMD parts.1 parts.2.1 parts.2.2 then
        some ⟨parts.1, parts.2.1, parts.2.2, 0, 0⟩
      else none
    else none
  else none

/-- Strict matcher for the sixteen-character `YYYY-MM-DD(sep)HH:mm`
patterns. -/
def matchDT16 (sep : Char) (l : List Char) : Option DateParts :=
  if l.length = 16 then
    let y := [l.getD 0 ' ', l.getD 1 ' ', l.getD 2 ' ', l.getD 3 ' ']
    let mo := [l.getD 5 ' ', l.getD 6 ' ']
    let d := [l.getD 8 ' ', l.getD 9 ' ']
    let hh := [l.getD 11 ' ', l.getD 12 ' ']
    let mi := [l.getD 14 ' ', l.getD 15 ' ']
    if l.getD 4 ' ' = '-' && l.getD 7 ' ' = '-' && l.getD 10 ' ' = sep
        && l.getD 13 ' ' = ':' && allDigits (y ++ mo ++ d ++ hh ++ mi) then
      if validYMD (digitsVal y) (digitsVal mo) (digitsVal d)
          && digitsVal hh ≤ 23 && digitsVal mi ≤ 59 then
        some ⟨digitsVal y, digitsVal mo, digitsVal d, digitsVal hh, digitsVal mi⟩
      else none
    else none
  else none

/-- The ordered strict format list of `parseDateToISO` (App.jsx line 559):
`YYYY-MM-DD`, `YYYY/MM/DD`, `DD/MM/YYYY`, `MM/DD/YYYY`, `YYYY-MM-DDTHH:mm`,
`YYYY-MM-DD HH:mm`, `DD.MM.YYYY`; the first strict match wins. -/
def tryFormats (s : String) : Option DateParts :=
  let l := s.data
  (matchD10 '-' (fun a b c => (a, b, c)) l).orElse fun _ =>
  (matchD10 '/' (fun a b c => (a, b, c)) l).orElse fun _ =>
  (matchD10R '/' (fun a b c => (c, b, a)) l).orElse fun _ =>
  (matchD10R '/' (fun a b c => (c, a, b)) l).orElse fun _ =>
  (matchDT16 'T' l).orElse fun _ =>
  (matchDT16 ' ' l).orElse fun _ =>
  matchD10R '.' (fun a b c => (c, b, a)) l

/-- Canonical UTC instant string as produced by `toISOString`:
`YYYY-MM-DDTHH:mm:ss.sssZ`, twenty-four characters with valid field
ranges. -/
def isCanonicalISO (s : String) : Bool :=
  let l := s.data
  if l.length = 24 then
    allDigits [l.getD 0 ' ', l.getD 1 ' ', l.getD 2 ' ', l.getD 3 ' ',
        l.getD 5 ' ', l.getD 6 ' ', l.getD 8 ' ', l.getD 9 ' ',
        l.getD 11 ' ', l.getD 12 ' ', l.getD 14 ' ', l.getD 15 ' ',
        l.getD 17 ' ', l.getD 18 ' ', l.getD 20 ' ', l.getD 21 ' ', l.getD 22 ' ']
      && l.getD 4 ' ' = '-' && l.getD 7 ' ' = '-' && l.getD 10 ' ' = 'T'
      && l.getD 13 ' ' = ':' && l.getD 16 ' ' = ':' && l.getD 19 ' ' = '.'
      && l.getD 23 ' ' = 'Z'
      && validYMD (digitsVal [l.getD 0 ' ', l.getD 1 ' ', l.getD 2 ' ', l.getD 3 ' '])
          (digitsVal [l.getD 5 ' ', l.getD 6 ' '])
          (digitsVal [l.getD 8 ' ', l.getD 9 ' '])
      && digitsVal [l.getD 11 ' ', l.getD 12 ' '] ≤ 23
      && digitsVal [l.getD 14 ' ', l.getD 15 ' '] ≤ 59
      && digitsVal [l.getD 17 ' ', l.getD 18 ' '] ≤ 59
  else false

/-- Model of `parseDateToISO` (App.jsx lines 557-566) on a present string.
`localISO` renders a strict-format match (a local date-time) to an absolute
instant through the host timezone and is kept as a parameter.  The lenient
`dayjs(val)` fallback is modelled on the inputs the claims exercise: a
canonical UTC instant string is parsed and re-rendered unchanged, anything
else that no strict pattern matched is an invalid date, hence `null`. -/
def parseDateToISOCore (localISO : DateParts → String) (s : String) : Option String :=
  match tryFormats s with
  | some parts => some (localISO parts)
  | none => if isCanonicalISO s then some s else none

/-- Model of `parseDateToISO` including its falsy-input guard
(App.jsx line 558): a missing or empty value yields `null`. -/
def parseDateToISO (localISO : DateParts → String) (val : Option String) : Option String :=
  match val with
  | none => none
  | some s => if s = "" then none else parseDateToISOCore localISO s

/-! ## CSV text format (papaparse model)

The export button (App.jsx lines 708-725) serializes the month's
transactions with `Papa.unparse`; the import path (lines 570-604) reads a
file back with `Papa.parse` using a header row.  Both are modelled here:
`unparse` quotes a field exactly when it contains the quote character, the
delimiter, a carriage return or newline, or has a leading or trailing
space, escapes quote characters by doubling them, and joins records with
CRLF; `parse` is the matching RFC-4180-style scan. -/

/-- Double every quote character, the papaparse escape step. -/
def escapeQ (f : List Char) : List Char :=
  f.flatMap (fun c => if c = '"' then ['"', '"'] else [c])

/-- Does papaparse wrap this field in quotes? -/
def needsQuote (f : List Char) : Bool :=
  f.contains '"' || f.contains ',' || f.contains '\r' || f.contains '\n'
    || f.headD ' ' = ' ' && f ≠ [] || f.getLastD ' ' = ' ' && f ≠ []

/-- Serialize one field. -/
def quoteField (f : List Char) : List Char :=
  if needsQuote f then '"' :: escapeQ f ++ ['"'] else f

/-- Serialize one record: fields joined by the comma delimiter. -/
def unparseRecord : List (List Char) → List Char
  | [] => []
  | [f] => quoteField f
  | f :: fs => quoteField f ++ ',' :: unparseRecord fs

/-- Model of `Papa.unparse` on a rectangular table (header row prepended by
the caller): records joined by CRLF, no trailing newline. -/
def unparseCSV : List (List (List Char)) → List Char
  | [] => []
  | [r] => unparseRecord r
  | r :: rs => unparseRecord r ++ '\r' :: '\n' :: unparseCSV rs

/-- Model of the `Papa.parse` scanner: one pass over the text tracking
whether the position is inside a quoted section, the current field, the
current record and the finished records.  A doubled quote inside a quoted
section is a literal quote; a quote at the start of a field opens a quoted
section; a comma outside quotes ends the field; CRLF or LF outside quotes
ends the record; the end of input finalizes the last record. -/
def csvScan : List Char → Bool → List Char → List String → List (List String) → List (List String)
  | [], _, field, record, out => out ++ [record ++ [String.mk field]]
  | c :: rest, inQ, field, record, out =>
    if inQ then
      if c = '"' then
        match rest with
        | '"' :: rest2 => csvScan rest2 true (field ++ ['"']) record out
        | r => csvScan r false field record out
      else csvScan rest true (field ++ [c]) record out
    else
      if c = '"' ∧ field = [] then csvScan rest true field record out
      else if c = ',' then csvScan rest false [] (record ++ [String.mk field]) out
      else if c = '\r' then
        match rest with
        | '\n' :: rest2 => csvScan rest2 false [] [] (out ++ [record ++ [String.mk field]])
        | r => csvScan r false (field ++ [c]) record out
      else if c = '\n' then csvScan rest false [] [] (out ++ [record ++ [String.mk field]])
      else csvScan rest false (field ++ [c]) record out
termination_by l _ _ _ _ => l.length
decreasing_by all_goals simp_arith

/-- Model of `Papa.parse` with `skipEmptyLines: true`: scan the text and
drop records that are a single empty field (empty lines). -/
def parseCSV (s : String) : List (List String) :=
  (csvScan s.data false [] [] []).filter (fun r => r ≠ [""])

/-- Pair each data record with the header record, the object shape
`Papa.parse` produces with `header: true`. -/
def importRows (csv : String) : List (List (String × String)) :=
  match parseCSV csv with
  | [] => []
  | header :: dataRows => dataRows.map (fun r => header.zip r)

/-! ## CSV Row Normalizer (src/src/App.jsx, onFileSelected) -/

/-- Model of the `get` header lookup inside `onFileSelected`
(App.jsx line 584): `raw[key] ?? raw[key.toLowerCase()] ?? raw[key.toUpperCase()]`. -/
def getField (raw : List (String × String)) (key : String) : Option String :=
  (raw.lookup key).orElse fun _ =>
    (raw.lookup (strToLower key)).orElse fun _ =>
      raw.lookup (strToUpper key)

/-- One normalized preview row (App.jsx line 592). -/
structure NormRow where
  type : String
  amount : Option ℚ
  category : String
  date : Option String
  note : String
  valid : Bool
  deriving DecidableEq, Repr

/-- Model of the row normalization inside `onFileSelected`
(App.jsx lines 583-593). -/
def normalizeRow (localISO : DateParts → String) (raw : List (String × String)) : NormRow :=
  let rawType := strToLower (jsTrim ((getField raw ("type")).getD ""))
  let type := if rawType = "income" then "income" else "expense"
  let amount := parseAmountNumber (getField raw ("amount"))
  let category0 :=
    match getField raw ("category") with
    | some s => if s = "" then "Other" else s
    | none => "Other"
  let category := if jsTrim category0 = "" then "Other" else jsTrim category0
  let dateISO := parseDateToISO localISO (getField raw ("date"))
  let note := jsTrim ((getField raw ("note")).getD "")
  let valid := (match amount with | some a => decide (0 < a) | none => false) && dateISO.isSome
  ⟨type, amount, category, dateISO, note, valid⟩

/-- The whole normalized preview: every raw row is kept, valid or not. -/
def normalizeAll (localISO : DateParts → String) (raws : List (List (String × String))) :
    List NormRow :=
  raws.map (normalizeRow localISO)

/-- Model of the commit subset of `confirmImport` (App.jsx line 610):
`csvPreview.rows.filter((row) => row.valid)`. -/
def validRows (rows : List NormRow) : List NormRow :=
  rows.filter (fun r => r.valid)

/-! ## Transactions and CSV export -/

/-- A transaction record as the store holds it (the `id` and `createdAt`
fields never feed the aggregations or the export and are omitted). -/
structure Tx where
  type : String
  amount : ℚ
  category : String
  date : String
  note : String
  deriving DecidableEq, Repr

/-- A record the application itself persisted: the entry form and the CSV
commit both write `type` as `income` or `expense`, a positive amount, a
trimmed non-empty category, a `toISOString` date and a trimmed note. -/
def SavedTx (t : Tx) : Prop :=
  (t.type = "income" ∨ t.type = "expense") ∧ 0 < t.amount
    ∧ jsTrim t.category = t.category ∧ t.category ≠ ""
    ∧ isCanonicalISO t.date = true ∧ jsTrim t.note = t.note

/-- Model of the Export CSV handler (App.jsx lines 708-715):
`Papa.unparse` of `{type, amount, category, date, note}` per transaction.
`render` is the JS number-to-string conversion applied to the amount. -/
def exportCSV (render : ℚ → String) (txs : List Tx) : String :=
  String.mk (unparseCSV (
    [("type" : String).data, ("amount" : String).data, ("category" : String).data,
      ("date" : String).data, ("note" : String).data]
    :: txs.map (fun t => [t.type.data, (render t.amount).data, t.category.data,
      t.date.data, t.note.data])))

/-- Import normalization of a CSV text: parse with the header row, then
normalize every data row. -/
def importNormalize (localISO : DateParts → String) (csv : String) : List NormRow :=
  normalizeAll localISO (importRows csv)

/-! ## Transaction Aggregator (src/src/App.jsx, AnalyticsTab) -/

/-- Update of `acc[cat] = (acc[cat] || 0) + amt` on a JS object modelled as
an insertion-ordered association list. -/
def bumpCat : List (String × ℚ) → String → ℚ → List (String × ℚ)
  | [], cat, amt => [(cat, amt)]
  | (k, v) :: rest, cat, amt =>
    if k = cat then (k, v + amt) :: rest else (k, v) :: bumpCat rest cat amt

/-- Model of `expenseByCat` (App.jsx lines 894-903): per-category sums of
expense amounts plus their grand total; income records are skipped. -/
def expenseByCat (txs : List Tx) : List (String × ℚ) × ℚ :=
  txs.foldl
    (fun st tx =>
      if tx.type ≠ "expense" then st
      else (bumpCat st.1 tx.category tx.amount, st.2 + tx.amount))
    ([], 0)

/-- Model of the doughnut tooltip percentage (App.jsx line 962):
`expenseByCat.total ? ((value / expenseByCat.total) * 100).toFixed(1) : 0`,
at the numeric level before the one-decimal formatting. -/
def pctOf (total value : ℚ) : ℚ :=
  if total = 0 then 0 else value / total * 100

/-- Update of one `byMonth` bucket, `acc[key][tx.type] += amount`
(App.jsx line 910): the pair holds the income and expense sums.  A saved
record's type is always one of the two; any other type string leaves the
bucket unchanged (the source would taint a junk field of the bucket
object, which no saved record set reaches). -/
def bumpMonth : List (String × (ℚ × ℚ)) → String → String → ℚ → List (String × (ℚ × ℚ))
  | [], key, ty, amt =>
    [(key, if ty = "income" then (amt, 0) else if ty = "expense" then (0, amt) else (0, 0))]
  | (k, p) :: rest, key, ty, amt =>
    if k = key then
      (k, if ty = "income" then (p.1 + amt, p.2)
          else if ty = "expense" then (p.1, p.2 + amt) else p) :: rest
    else (k, p) :: bumpMonth rest key ty amt

/-- The `byMonth` accumulator object (App.jsx lines 905-911): one bucket
per distinct month key of the records, in first-appearance order.
`monthOf` models `dayjs(tx.date).format('YYYY-MM')`, the record date's
calendar month in local time. -/
def byMonthAcc (monthOf : String → String) (txs : List Tx) : List (String × (ℚ × ℚ)) :=
  txs.foldl (fun acc tx => bumpMonth acc (monthOf tx.date) tx.type tx.amount) []

/-- Insert into a string list kept in nondecreasing order. -/
def insertStr (x : String) : List String → List String
  | [] => [x]
  | y :: ys => if x ≤ y then x :: y :: ys else y :: insertStr x ys

/-- Insertion sort on strings, modelling the JS default lexicographic
`Array.prototype.sort`. -/
def sortStrs : List String → List String
  | [] => []
  | x :: xs => insertStr x (sortStrs xs)

/-- Model of the `byMonth` result (App.jsx lines 912-917): the sorted
bucket keys and, in that order, the income and expense sums per bucket. -/
def byMonthSeries (monthOf : String → String) (txs : List Tx) :
    List String × List ℚ × List ℚ :=
  let acc := byMonthAcc monthOf txs
  let labels := sortStrs (acc.map (fun p => p.1))
  (labels,
    labels.map (fun l => ((acc.lookup l).getD (0, 0)).1),
    labels.map (fun l => ((acc.lookup l).getD (0, 0)).2))

/-! ## Budget Projection Engine (src/src/App.jsx, NewTab leftInfo) -/

/-- The `leftInfo` record the entry form shows (App.jsx line 342). -/
structure LeftInfo where
  text : String
  value : ℚ
  budget : ℚ
  spent : ℚ
  pending : ℚ
  deriving Repr

/-- Model of the budget projection in the `leftInfo` snapshot handler
(App.jsx lines 371-384): `budget = Number(catBudgets[category] || 0)`,
`pending = parseAmountNumber(amount) || 0`, `left = budget - spent - pending`,
and the reported text.  `fmt` models the external `formatCurrency`
rendering; `pendingRaw` is the parse result of the amount being typed
(`none` for `NaN`, which `|| 0` maps to zero). -/
def projectBudget (fmt : ℚ → String) (catBudgets : List (String × ℚ)) (category : String)
    (spent : ℚ) (pendingRaw : Option ℚ) : LeftInfo :=
  let budget := (catBudgets.lookup category).getD 0
  let pending := pendingRaw.getD 0
  let left := budget - spent - pending
  let text :=
    if 0 < budget then fmt left ++ " left this month for " ++ category
    else "No budget set for this category."
  ⟨text, left, budget, spent, pending⟩

/-! ## Settings save (src/src/App.jsx, SettingsTab.saveMain) -/

/-- Model of `cleanedBudgets` (App.jsx line 1167): keep exactly the budget
entries whose value is a number strictly greater than zero (`Number(val) > 0`
is false for `NaN`, modelled by `none`, and for any value at most zero). -/
def cleanedBudgets (catBudgets : List (String × Option ℚ)) : List (String × Option ℚ) :=
  catBudgets.filter (fun p => match p.2 with | some v => decide (0 < v) | none => false)

/-! ## General lemmas -/

theorem contains_iff_mem (c : Char) (l : List Char) : l.contains c = true ↔ c ∈ l :=
  List.elem_iff

theorem replaceFirst_of_not_mem (l : List Char) (a b : Char) (h : a ∉ l) :
    replaceFirst l a b = l := by
  induction l with
  | nil => rfl
  | cons x xs ih =>
    rw [List.mem_cons, not_or] at h
    have hxa : ¬ x = a := fun hx => h.1 hx.symm
    rw [replaceFirst, if_neg hxa, ih h.2]

theorem replaceFirst_append (pre post : List Char) (a b : Char) (h : a ∉ pre) :
    replaceFirst (pre ++ a :: post) a b = pre ++ b :: post := by
  induction pre with
  | nil => simp [replaceFirst]
  | cons x xs ih =>
    rw [List.mem_cons, not_or] at h
    have hxa : ¬ x = a := fun hx => h.1 hx.symm
    rw [List.cons_append, replaceFirst, if_neg hxa, ih h.2, List.cons_append]

/-! ## Claim theorems -/

/-- C1: the budget projection computes `remaining = budget - spentSoFar - pending`
with the budget looked up in the map (zero if absent), never clamps a
negative remainder, renders the human-readable remaining text exactly when
the budget is positive, and otherwise reports the fixed no-budget
indicator with no numeric remaining figure. -/
theorem budget_projection_rules (fmt : ℚ → String) (catBudgets : List (String × ℚ))
    (category : String) (spent : ℚ) (pendingRaw : Option ℚ) :
    (projectBudget fmt catBudgets category spent pendingRaw).value
        = (catBudgets.lookup category).getD 0 - spent - pendingRaw.getD 0
      ∧ (projectBudget fmt catBudgets category spent pendingRaw).budget
        = (catBudgets.lookup category).getD 0
      ∧ (0 < (projectBudget fmt catBudgets category spent pendingRaw).budget →
          (projectBudget fmt catBudgets category spent pendingRaw).text
            = fmt ((projectBudget fmt catBudgets category spent pendingRaw).value)
              ++ " left this month for " ++ category)
      ∧ ((projectBudget fmt catBudgets category spent pendingRaw).budget ≤ 0 →
          (projectBudget fmt catBudgets category spent pendingRaw).text
            = "No budget set for this category.") := by
  refine ⟨rfl, rfl, fun h => ?_, fun h => ?_⟩
  · simp only [projectBudget] at h ⊢
    rw [if_pos h]
  · simp only [projectBudget] at h ⊢
    rw [if_neg (not_lt.mpr h)]

/-- Witness for C1 at concrete inputs: budget 100, spent 80, pending 30
gives remaining -10 (negative, unclamped), and a category with no budget
entry reports the fixed indicator. -/
theorem budget_projection_rules_witness :
    (projectBudget (fun _ => "") [("Groceries", (100 : ℚ))] "Groceries" 80 (some 30)).value = -10
      ∧ (projectBudget (fun _ => "") [] "Groceries" 80 (some 30)).text
        = "No budget set for this category." := by
  have h1 := budget_projection_rules (fun _ => "") [("Groceries", (100 : ℚ))] "Groceries" 80 (some 30)
  have h2 := budget_projection_rules (fun _ => "") [] "Groceries" 80 (some 30)
  refine ⟨h1.1.trans ?_, h2.2.2.2 (le_refl 0)⟩
  show (some (100 : ℚ)).getD 0 - 80 - (some (30 : ℚ)).getD 0 = -10
  norm_num

/-- C8: an input whose normalization does not parse as a number yields the
not-a-number sentinel (`none`), never a silent zero; empty and null input
normalize to the empty string with the sentinel as value, and the sentinel
is distinguishable from zero. -/
theorem amount_parse_failure_sentinel (val : Option String) :
    (parseFloatM (normalizeAmountString val) = none →
        parseAmountNumber val = none ∧ parseAmountNumber val ≠ some 0)
      ∧ normalizeAmountString none = ""
      ∧ parseAmountNumber none = none
      ∧ normalizeAmountString (some ("")) = ""
      ∧ parseAmountNumber (some ("")) = none
      ∧ parseAmountNumber (some ("abc")) = none := by
  refine ⟨fun h => ?_, rfl, rfl, by decide, by decide, by decide⟩
  have hn : parseAmountNumber val = none := by rw [parseAmountNumber, h]
  exact ⟨hn, by rw [hn]; simp⟩

/-- Witness for C8 at the empty string: its normalization fails to parse,
so the parser reports the sentinel and not zero. -/
theorem amount_parse_failure_sentinel_witness :
    parseAmountNumber (some ("")) = none ∧ parseAmountNumber (some ("")) ≠ some 0 :=
  (amount_parse_failure_sentinel (some (""))).1 (by decide)

/-- C10: the settings save filters the category budget map down to exactly
the entries whose value is a number strictly greater than zero; entries
that are not positive numbers never survive the save. -/
theorem cleaned_budgets_positive (catBudgets : List (String × Option ℚ))
    (p : String × Option ℚ) :
    p ∈ cleanedBudgets catBudgets ↔
      p ∈ catBudgets ∧ ∃ q : ℚ, p.2 = some q ∧ 0 < q := by
  unfold cleanedBudgets
  rw [List.mem_filter]
  rcases p with ⟨k, v⟩
  cases v with
  | none => simp
  | some q => simp

/-- Witness for C10: a positive entry survives the save and a zero entry
does not. -/
theorem cleaned_budgets_positive_witness :
    ("a", some (5 : ℚ)) ∈ cleanedBudgets [("a", some (5 : ℚ)), ("b", some 0)]
      ∧ ("b", (some 0 : Option ℚ)) ∉ cleanedBudgets [("a", some (5 : ℚ)), ("b", some 0)] := by
  constructor
  · exact (cleaned_budgets_positive _ _).mpr ⟨by decide, 5, rfl, by decide⟩
  · intro h
    obtain ⟨-, q, hq, hpos⟩ := (cleaned_budgets_positive _ _).mp h
    rw [Option.some_inj] at hq
    rw [← hq] at hpos
    exact absurd hpos (by decide)

/-- C3 counterexample: the header lookup tries only the exact, lowercase
and uppercase forms of the field name, so a title-case `Amount` header is
not resolved while a lowercase `amount` header is — the two are not
resolved identically. -/
theorem header_lookup_counterexample :
    getField [("Amount", "50")] "amount" = none
      ∧ getField [("amount", "50")] "amount" = some ("50") := by
  constructor <;> rfl

/-- C3 amended: for each logical field the lookup tries the exact column
name, then its lowercase form, then its uppercase form, first match wins;
since the logical names are lowercase, `amount` and `AMOUNT` headers
resolve identically, but a mixed-case header such as `Amount` is not
found. -/
theorem header_lookup_amended (v w : String) :
    getField [("amount", v)] "amount" = some v
      ∧ getField [("AMOUNT", v)] "amount" = some v
      ∧ getField [("Amount", v)] "amount" = none
      ∧ getField [("amount", v), ("AMOUNT", w)] "amount" = some v
      ∧ ∀ (key : String) (raw : List (String × String)),
          getField raw key =
            ((raw.lookup key).orElse fun _ =>
              (raw.lookup (strToLower key)).orElse fun _ => raw.lookup (strToUpper key)) := by
  exact ⟨rfl, rfl, rfl, rfl, fun key raw => rfl⟩

/-- Witness for C3 (amended) at a concrete value. -/
theorem header_lookup_amended_witness :
    getField [("AMOUNT", "50")] "amount" = some ("50") :=
  (header_lookup_amended "50" "0").2.1

/-- C7: a `YYYY-MM` month key resolves to the inclusive range from the
first day at 00:00:00.000 to the last day at 23:59:59.999 of that calendar
month, with the last day honoring the leap year rule (February 2024 has
29 days, February 2023 has 28). -/
theorem month_range_full_month (s : String) (y m : Nat)
    (h : parseMonthKey s = some (y, m)) :
    monthRangeISO s = some (⟨y, m, 1, 0, 0, 0, 0⟩, ⟨y, m, daysInMonth y m, 23, 59, 59, 999⟩)
      ∧ (∀ yy, daysInMonth yy 2 = if isLeap yy then 29 else 28)
      ∧ daysInMonth 2024 2 = 29 ∧ daysInMonth 2023 2 = 28
      ∧ monthRangeISO ("2024-02")
        = some (⟨2024, 2, 1, 0, 0, 0, 0⟩, ⟨2024, 2, 29, 23, 59, 59, 999⟩)
      ∧ monthRangeISO ("2023-02")
        = some (⟨2023, 2, 1, 0, 0, 0, 0⟩, ⟨2023, 2, 28, 23, 59, 59, 999⟩) := by
  refine ⟨?_, fun yy => by simp [daysInMonth], by decide, by decide, by decide, by decide⟩
  simp [monthRangeISO, h]

/-- Witness for C7 at the leap-year key `2024-02`. -/
theorem month_range_full_month_witness :
    monthRangeISO ("2024-02")
      = some (⟨2024, 2, 1, 0, 0, 0, 0⟩, ⟨2024, 2, 29, 23, 59, 59, 999⟩) :=
  (month_range_full_month "2024-02" 2024 2 (by decide)).1.trans (by decide)

/-- C2: the separator disambiguation of the amount parser.  When the
whitespace-stripped input has both a comma and a dot, every dot is removed
and the comma becomes the decimal point; when only a comma appears it
becomes the decimal point; when no comma appears (in particular with only
dots) the stage leaves the text alone.  Concretely, `1.234,56` parses to
1234.56 and `12,5` parses to 12.5. -/
theorem amount_separator_rules (s : String) :
    ((',' ∈ wsStrip s ∧ '.' ∈ wsStrip s) →
        sepStage (wsStrip s) = replaceFirst ((wsStrip s).filter (fun c => c ≠ '.')) ',' '.')
      ∧ (∀ a b : List Char, wsStrip s = a ++ ',' :: b → ',' ∉ a → '.' ∉ wsStrip s →
          sepStage (wsStrip s) = a ++ '.' :: b)
      ∧ (',' ∉ wsStrip s → sepStage (wsStrip s) = wsStrip s)
      ∧ parseAmountNumber (some ("1.234,56")) = some ((123456 : ℚ) / 100)
      ∧ parseAmountNumber (some ("12,5")) = some ((125 : ℚ) / 10) := by
  refine ⟨fun h => ?_, fun a b hab hna hnd => ?_, fun h => ?_, ?_, ?_⟩
  · rw [sepStage, if_pos]
    rw [Bool.and_eq_true, contains_iff_mem, contains_iff_mem]
    exact h
  · have hcond : ¬ ((wsStrip s).contains ',' && (wsStrip s).contains '.') = true := by
      rw [Bool.and_eq_true, contains_iff_mem, contains_iff_mem]
      exact fun hc => hnd hc.2
    rw [sepStage, if_neg hcond, hab, replaceFirst_append a b ',' '.' hna]
  · have hcond : ¬ ((wsStrip s).contains ',' && (wsStrip s).contains '.') = true := by
      rw [Bool.and_eq_true, contains_iff_mem, contains_iff_mem]
      exact fun hc => h hc.1
    rw [sepStage, if_neg hcond, replaceFirst_of_not_mem _ _ _ h]
  · have hn : normalizeAmountString (some ("1.234,56")) = "1234.56" := by decide
    rw [parseAmountNumber, hn]
    have hf : parseFloatM "1234.56"
        = some ((digitsVal ['1', '2', '3', '4'] : ℚ)
          + (digitsVal ['5', '6'] : ℚ) / ((10 : ℚ) ^ (2 : Nat))) := rfl
    rw [hf]
    have d1 : digitsVal ['1', '2', '3', '4'] = 1234 := rfl
    have d2 : digitsVal ['5', '6'] = 56 := rfl
    rw [d1, d2]
    norm_num
  · have hn : normalizeAmountString (some ("12,5")) = "12.5" := by decide
    rw [parseAmountNumber, hn]
    have hf : parseFloatM "12.5"
        = some ((digitsVal ['1', '2'] : ℚ)
          + (digitsVal ['5'] : ℚ) / ((10 : ℚ) ^ (1 : Nat))) := rfl
    rw [hf]
    have d1 : digitsVal ['1', '2'] = 12 := rfl
    have d2 : digitsVal ['5'] = 5 := rfl
    rw [d1, d2]
    norm_num

/-- Witness for C2: the two-separator rule fires on `1.234,56` and the
comma-only input `12,5` parses to 12.5. -/
theorem amount_separator_rules_witness :
    sepStage (wsStrip "1.234,56")
        = replaceFirst ((wsStrip "1.234,56").filter (fun c => c ≠ '.')) ',' '.'
      ∧ parseAmountNumber (some ("12,5")) = some ((125 : ℚ) / 10) :=
  ⟨(amount_separator_rules "1.234,56").1 (by decide),
    (amount_separator_rules "12,5").2.2.2.2⟩

/-- Spec-side formula for the grand total: sum of all expense amounts of a
record set. -/
def specExpenseTotal (txs : List Tx) : ℚ :=
  ((txs.filter (fun t => t.type == "expense")).map (fun t => t.amount)).sum

/-- Spec-side formula for one category: sum of the expense amounts carrying
that category. -/
def specExpenseCatSum (txs : List Tx) (cat : String) : ℚ :=
  ((txs.filter (fun t => t.type == "expense" && t.category == cat)).map (fun t => t.amount)).sum

theorem bumpCat_lookup (l : List (String × ℚ)) (cat : String) (amt : ℚ) (k : String) :
    ((bumpCat l cat amt).lookup k).getD 0
      = (l.lookup k).getD 0 + (if cat = k then amt else 0) := by
  induction l with
  | nil =>
    by_cases h : cat = k
    · subst h
      simp [bumpCat, List.lookup]
    · have hb : (k == cat) = false := beq_false_of_ne (fun hx => h hx.symm)
      simp [bumpCat, List.lookup, hb, h]
  | cons p rest ih =>
    rcases p with ⟨pk, pv⟩
    rw [bumpCat]
    by_cases h1 : pk = cat
    · rw [if_pos h1]
      subst h1
      by_cases h2 : k = pk
      · subst h2
        simp [List.lookup]
      · have hb : (k == pk) = false := beq_false_of_ne h2
        have hif : ¬ pk = k := fun hx => h2 hx.symm
        simp [List.lookup, hb, hif]
    · rw [if_neg h1]
      by_cases h2 : k = pk
      · subst h2
        have hck : ¬ cat = k := fun hx => h1 hx.symm
        simp [List.lookup, hck]
      · have hb : (k == pk) = false := beq_false_of_ne h2
        simp [List.lookup, hb, ih]

theorem expenseByCat_fold (txs : List Tx) (acc : List (String × ℚ) × ℚ) :
    (txs.foldl
        (fun st tx =>
          if tx.type ≠ "expense" then st
          else (bumpCat st.1 tx.category tx.amount, st.2 + tx.amount)) acc).2
        = acc.2 + specExpenseTotal txs
      ∧ ∀ k,
        (((txs.foldl
            (fun st tx =>
              if tx.type ≠ "expense" then st
              else (bumpCat st.1 tx.category tx.amount, st.2 + tx.amount)) acc).1.lookup
          k).getD 0)
          = ((acc.1.lookup k).getD 0) + specExpenseCatSum txs k := by
  induction txs generalizing acc with
  | nil => simp [specExpenseTotal, specExpenseCatSum]
  | cons tx rest ih =>
    rw [List.foldl_cons]
    by_cases h : tx.type = "expense"
    · have hstep :
          (if tx.type ≠ "expense" then acc
            else (bumpCat acc.1 tx.category tx.amount, acc.2 + tx.amount))
          = (bumpCat acc.1 tx.category tx.amount, acc.2 + tx.amount) := by
        rw [if_neg (by simpa using h)]
      rw [hstep]
      obtain ⟨ihT, ihC⟩ := ih (bumpCat acc.1 tx.category tx.amount, acc.2 + tx.amount)
      constructor
      · rw [ihT]
        simp only [specExpenseTotal, List.filter_cons, beq_iff_eq, h]
        simp [add_assoc]
      · intro k
        rw [ihC k]
        simp only [bumpCat_lookup]
        simp only [specExpenseCatSum, List.filter_cons, Bool.and_eq_true, beq_iff_eq, h]
        by_cases hk : tx.category = k
        · simp [hk, add_assoc]
        · simp [hk]
    · have hstep :
          (if tx.type ≠ "expense" then acc
            else (bumpCat acc.1 tx.category tx.amount, acc.2 + tx.amount)) = acc := by
        rw [if_pos (by simpa using h)]
      rw [hstep]
      obtain ⟨ihT, ihC⟩ := ih acc
      refine ⟨?_, fun k => ?_⟩
      · rw [ihT]
        simp [specExpenseTotal, List.filter_cons, h]
      · rw [ihC k]
        simp [specExpenseCatSum, List.filter_cons, h]

/-- C9: the per-category breakdown sums only expense amounts, its grand
total is the sum of all expense amounts and serves as the percentage
denominator; a zero total reports a zero percentage with no division, and
the aggregates of an empty record set are all empty or zero. -/
theorem expense_breakdown (txs : List Tx) (monthOf : String → String) :
    (expenseByCat txs).2 = specExpenseTotal txs
      ∧ (∀ cat, (((expenseByCat txs).1.lookup cat).getD 0) = specExpenseCatSum txs cat)
      ∧ (∀ v : ℚ, (expenseByCat txs).2 = 0 → pctOf (expenseByCat txs).2 v = 0)
      ∧ expenseByCat ([] : List Tx) = ([], 0)
      ∧ byMonthSeries monthOf ([] : List Tx) = ([], [], []) := by
  obtain ⟨hT, hC⟩ := expenseByCat_fold txs ([], 0)
  refine ⟨?_, fun cat => ?_, fun v hv => ?_, rfl, rfl⟩
  · rw [expenseByCat, hT, zero_add]
  · rw [expenseByCat, hC cat]
    simp [List.lookup]
  · rw [pctOf, if_pos hv]

/-- Witness for C9: the empty record set has a zero grand total and a zero
reported percentage. -/
theorem expense_breakdown_witness :
    pctOf (expenseByCat ([] : List Tx)).2 5 = 0 :=
  (expense_breakdown [] (fun s => s)).2.2.1 5 rfl

/-- C6: a normalized row is valid exactly when its amount parsed to a
finite number strictly greater than zero and its date resolved to a
non-null value; invalid rows stay in the normalized preview (every raw row
produces exactly one preview row, in place), and the commit batch is
exactly the valid subset. -/
theorem normalized_rows_validity (localISO : DateParts → String)
    (raws : List (List (String × String))) (raw : List (String × String)) (i : Nat) :
    ((normalizeRow localISO raw).valid = true ↔
        (∃ a : ℚ, (normalizeRow localISO raw).amount = some a ∧ 0 < a)
          ∧ (normalizeRow localISO raw).date ≠ none)
      ∧ (normalizeAll localISO raws).length = raws.length
      ∧ (normalizeAll localISO raws)[i]? = (raws[i]?).map (normalizeRow localISO)
      ∧ (∀ r ∈ validRows (normalizeAll localISO raws),
          r.valid = true ∧ r ∈ normalizeAll localISO raws)
      ∧ (∀ r ∈ normalizeAll localISO raws,
          r.valid = true → r ∈ validRows (normalizeAll localISO raws)) := by
  refine ⟨?_, by simp [normalizeAll], by simp [normalizeAll], fun r hr => ?_, fun r hr hv => ?_⟩
  · simp only [normalizeRow]
    cases hA : parseAmountNumber (getField raw ("amount")) with
    | none =>
      cases hD : parseDateToISO localISO (getField raw ("date")) <;> simp
    | some a =>
      cases hD : parseDateToISO localISO (getField raw ("date")) <;> simp
  · rw [validRows, List.mem_filter] at hr
    exact ⟨hr.2, hr.1⟩
  · rw [validRows, List.mem_filter]
    exact ⟨hr, hv⟩

/-- Witness for C6 at a concrete row with an unparseable date and sound
other fields: it is normalized (kept in the preview, length preserved) but
marked invalid. -/
theorem normalized_rows_validity_witness :
    (normalizeAll (fun _ => "")
        [[("type", "expense"), ("amount", "50"), ("category", "Food"),
          ("date", "soon"), ("note", "x")]]).length = 1
      ∧ (normalizeRow (fun _ => "")
          [("type", "expense"), ("amount", "50"), ("category", "Food"),
            ("date", "soon"), ("note", "x")]).valid = false := by
  have h := normalized_rows_validity (fun _ => "")
    [[("type", "expense"), ("amount", "50"), ("category", "Food"),
      ("date", "soon"), ("note", "x")]]
    [("type", "expense"), ("amount", "50"), ("category", "Food"),
      ("date", "soon"), ("note", "x")] 0
  refine ⟨h.2.1, ?_⟩
  have hd : (normalizeRow (fun _ => "")
      [("type", "expense"), ("amount", "50"), ("category", "Food"),
        ("date", "soon"), ("note", "x")]).date = none := by decide
  cases hv : (normalizeRow (fun _ => "")
      [("type", "expense"), ("amount", "50"), ("category", "Food"),
        ("date", "soon"), ("note", "x")]).valid
  · rfl
  · exact absurd hd (h.1.mp hv).2

/-- Spec-side formula: income sum of the records whose own date falls in
month `l`. -/
def specMonthIncome (monthOf : String → String) (txs : List Tx) (l : String) : ℚ :=
  ((txs.filter (fun t => t.type == "income" && monthOf t.date == l)).map (fun t => t.amount)).sum

/-- Spec-side formula: expense sum of the records whose own date falls in
month `l`. -/
def specMonthExpense (monthOf : String → String) (txs : List Tx) (l : String) : ℚ :=
  ((txs.filter (fun t => t.type == "expense" && monthOf t.date == l)).map (fun t => t.amount)).sum

theorem mem_insertStr (x y : String) (l : List String) :
    y ∈ insertStr x l ↔ y = x ∨ y ∈ l := by
  induction l with
  | nil => simp [insertStr]
  | cons z zs ih =>
    rw [insertStr]
    by_cases h : x ≤ z
    · simp [h]
    · simp only [h, if_false, List.mem_cons, ih]
      tauto

theorem sorted_insertStr (x : String) (l : List String) (h : l.Sorted (· ≤ ·)) :
    (insertStr x l).Sorted (· ≤ ·) := by
  induction l with
  | nil => simp [insertStr]
  | cons z zs ih =>
    rw [List.sorted_cons] at h
    rw [insertStr]
    by_cases hx : x ≤ z
    · rw [if_pos hx]
      refine List.sorted_cons.mpr ⟨?_, List.sorted_cons.mpr h⟩
      intro b hb
      rcases List.mem_cons.mp hb with hbz | hbs
      · exact hbz ▸ hx
      · exact le_trans hx (h.1 b hbs)
    · rw [if_neg hx]
      have hz : z ≤ x := le_of_not_le hx
      refine List.sorted_cons.mpr ⟨?_, ih h.2⟩
      intro b hb
      rcases (mem_insertStr x b zs).mp hb with hbx | hbz
      · exact hbx ▸ hz
      · exact h.1 b hbz

theorem sorted_sortStrs (l : List String) : (sortStrs l).Sorted (· ≤ ·) := by
  induction l with
  | nil => simp [sortStrs]
  | cons x xs ih => exact sorted_insertStr x _ ih

theorem mem_sortStrs (y : String) (l : List String) : y ∈ sortStrs l ↔ y ∈ l := by
  induction l with
  | nil => simp [sortStrs]
  | cons x xs ih =>
    rw [sortStrs, mem_insertStr, ih, List.mem_cons]

theorem bumpMonth_lookup (acc : List (String × (ℚ × ℚ))) (key ty : String) (amt : ℚ)
    (k : String) :
    ((bumpMonth acc key ty amt).lookup k).getD (0, 0)
      = (((acc.lookup k).getD (0, 0)).1 + (if key = k ∧ ty = "income" then amt else 0),
        ((acc.lookup k).getD (0, 0)).2 + (if key = k ∧ ty = "expense" then amt else 0)) := by
  induction acc with
  | nil =>
    by_cases hk : key = k
    · subst hk
      by_cases hty1 : ty = "income"
      · simp [bumpMonth, List.lookup, hty1]
      · by_cases hty2 : ty = "expense" <;> simp [bumpMonth, List.lookup, hty1, hty2]
    · have hb : (k == key) = false := beq_false_of_ne (fun hx => hk hx.symm)
      simp [bumpMonth, List.lookup, hb, hk]
  | cons p rest ih =>
    rcases p with ⟨pk, pv⟩
    rw [bumpMonth]
    by_cases h1 : pk = key
    · rw [if_pos h1]
      subst h1
      by_cases h2 : k = pk
      · subst h2
        by_cases hty1 : ty = "income"
        · simp [List.lookup, hty1]
        · by_cases hty2 : ty = "expense" <;> simp [List.lookup, hty1, hty2]
      · have hb : (k == pk) = false := beq_false_of_ne h2
        have hpk : ¬ pk = k := fun hx => h2 hx.symm
        simp [List.lookup, hb, hpk]
    · rw [if_neg h1]
      by_cases h2 : k = pk
      · subst h2
        have hkey : ¬ key = k := fun hx => h1 hx.symm
        simp [List.lookup, hkey]
      · have hb : (k == pk) = false := beq_false_of_ne h2
        simpa [List.lookup, hb] using ih

theorem bumpMonth_keys (acc : List (String × (ℚ × ℚ))) (key ty : String) (amt : ℚ)
    (l : String) :
    l ∈ (bumpMonth acc key ty amt).map Prod.fst ↔ l ∈ acc.map Prod.fst ∨ l = key := by
  induction acc with
  | nil => simp [bumpMonth]
  | cons p rest ih =>
    rcases p with ⟨pk, pv⟩
    rw [bumpMonth]
    by_cases h1 : pk = key
    · rw [if_pos h1]
      subst h1
      simp only [List.map_cons, List.mem_cons]
      tauto
    · rw [if_neg h1]
      simp only [List.map_cons, List.mem_cons, ih]
      tauto

theorem byMonthAcc_fold_lookup (monthOf : String → String) (txs : List Tx)
    (acc : List (String × (ℚ × ℚ))) (k : String) :
    (((txs.foldl (fun acc tx => bumpMonth acc (monthOf tx.date) tx.type tx.amount)
        acc).lookup k).getD (0, 0))
      = (((acc.lookup k).getD (0, 0)).1 + specMonthIncome monthOf txs k,
        ((acc.lookup k).getD (0, 0)).2 + specMonthExpense monthOf txs k) := by
  induction txs generalizing acc with
  | nil => simp [specMonthIncome, specMonthExpense]
  | cons tx rest ih =>
    rw [List.foldl_cons, ih (bumpMonth acc (monthOf tx.date) tx.type tx.amount),
      bumpMonth_lookup]
    simp only [specMonthIncome, specMonthExpense, List.filter_cons, Bool.and_eq_true,
      beq_iff_eq, Prod.mk.injEq]
    constructor
    · by_cases hty : tx.type = "income" <;> by_cases hm : monthOf tx.date = k <;>
        simp [hty, hm, add_assoc]
    · by_cases hty : tx.type = "expense" <;> by_cases hm : monthOf tx.date = k <;>
        simp [hty, hm, add_assoc]

theorem byMonthAcc_lookup_spec (monthOf : String → String) (txs : List Tx) (k : String) :
    ((byMonthAcc monthOf txs).lookup k).getD (0, 0)
      = (specMonthIncome monthOf txs k, specMonthExpense monthOf txs k) := by
  have h := byMonthAcc_fold_lookup monthOf txs [] k
  simpa [byMonthAcc] using h

theorem byMonthAcc_keys (monthOf : String → String) (txs : List Tx)
    (acc : List (String × (ℚ × ℚ))) (l : String) :
    (l ∈ (txs.foldl (fun acc tx => bumpMonth acc (monthOf tx.date) tx.type tx.amount)
        acc).map Prod.fst)
      ↔ l ∈ acc.map Prod.fst ∨ ∃ tx ∈ txs, monthOf tx.date = l := by
  induction txs generalizing acc with
  | nil => simp
  | cons tx rest ih =>
    rw [List.foldl_cons, ih, bumpMonth_keys]
    simp only [List.mem_cons]
    constructor
    · rintro ((h | h) | h)
      · exact Or.inl h
      · exact Or.inr ⟨tx, Or.inl rfl, h.symm⟩
      · obtain ⟨t, ht, hm⟩ := h
        exact Or.inr ⟨t, Or.inr ht, hm⟩
    · rintro (h | ⟨t, (rfl | ht), hm⟩)
      · exact Or.inl (Or.inl h)
      · exact Or.inl (Or.inr hm.symm)
      · exact Or.inr ⟨t, ht, hm⟩

theorem byMonthSeries_fst (monthOf : String → String) (txs : List Tx) :
    (byMonthSeries monthOf txs).1
      = sortStrs ((byMonthAcc monthOf txs).map (fun p => p.1)) := rfl

theorem byMonthSeries_income (monthOf : String → String) (txs : List Tx) :
    (byMonthSeries monthOf txs).2.1
      = (byMonthSeries monthOf txs).1.map
          (fun l => (((byMonthAcc monthOf txs).lookup l).getD (0, 0)).1) := rfl

theorem byMonthSeries_expense (monthOf : String → String) (txs : List Tx) :
    (byMonthSeries monthOf txs).2.2
      = (byMonthSeries monthOf txs).1.map
          (fun l => (((byMonthAcc monthOf txs).lookup l).getD (0, 0)).2) := rfl

/-- C5: the monthly series buckets every record by its own date's calendar
month, its bucket keys are sorted lexicographically, a month key appears
exactly when some record of the set falls in that month (no empty buckets
are synthesized), and each bucket carries the income and expense sums of
its month. -/
theorem monthly_series_buckets (monthOf : String → String) (txs : List Tx)
    (_wellTyped : ∀ tx ∈ txs, tx.type = "income" ∨ tx.type = "expense") :
    (byMonthSeries monthOf txs).1.Sorted (· ≤ ·)
      ∧ (∀ l, l ∈ (byMonthSeries monthOf txs).1 ↔ ∃ tx ∈ txs, monthOf tx.date = l)
      ∧ (byMonthSeries monthOf txs).2.1
          = (byMonthSeries monthOf txs).1.map (specMonthIncome monthOf txs)
      ∧ (byMonthSeries monthOf txs).2.2
          = (byMonthSeries monthOf txs).1.map (specMonthExpense monthOf txs) := by
  refine ⟨?_, fun l => ?_, ?_, ?_⟩
  · rw [byMonthSeries_fst]
    exact sorted_sortStrs _
  · rw [byMonthSeries_fst, mem_sortStrs]
    have hk := byMonthAcc_keys monthOf txs [] l
    simpa [byMonthAcc] using hk
  · rw [byMonthSeries_income]
    refine List.map_congr_left (fun l _ => ?_)
    rw [byMonthAcc_lookup_spec]
  · rw [byMonthSeries_expense]
    refine List.map_congr_left (fun l _ => ?_)
    rw [byMonthAcc_lookup_spec]

/-- Witness for C5 at a one-record set bucketed by the first seven
characters of its date. -/
theorem monthly_series_buckets_witness :
    (byMonthSeries (fun s => String.mk (s.data.take 7))
        [⟨"expense", 7, "Bus", "2024-03-07T10:00:00.000Z", ""⟩]).2.2
      = (byMonthSeries (fun s => String.mk (s.data.take 7))
          [⟨"expense", 7, "Bus", "2024-03-07T10:00:00.000Z", ""⟩]).1.map
          (specMonthExpense (fun s => String.mk (s.data.take 7))
            [⟨"expense", 7, "Bus", "2024-03-07T10:00:00.000Z", ""⟩]) :=
  (monthly_series_buckets (fun s => String.mk (s.data.take 7))
    [⟨"expense", 7, "Bus", "2024-03-07T10:00:00.000Z", ""⟩] (by decide)).2.2.2

theorem isCanonicalISO_length (s : String) (h : isCanonicalISO s = true) :
    s.data.length = 24 := by
  by_contra hne
  simp only [isCanonicalISO] at h
  rw [if_neg hne] at h
  exact Bool.false_ne_true h

theorem isCanonicalISO_ne_empty (s : String) (h : isCanonicalISO s = true) : s ≠ "" := by
  intro he
  subst he
  exact absurd h (by decide)

theorem matchD10_none (sep : Char) (pick : Nat → Nat → Nat → Nat × Nat × Nat)
    (l : List Char) (h : l.length ≠ 10) : matchD10 sep pick l = none := by
  simp only [matchD10, if_neg h]

theorem matchD10R_none (sep : Char) (pick : Nat → Nat → Nat → Nat × Nat × Nat)
    (l : List Char) (h : l.length ≠ 10) : matchD10R sep pick l = none := by
  simp only [matchD10R, if_neg h]

theorem matchDT16_none (sep : Char) (l : List Char) (h : l.length ≠ 16) :
    matchDT16 sep l = none := by
  simp only [matchDT16, if_neg h]

theorem tryFormats_none (s : String) (h10 : s.data.length ≠ 10)
    (h16 : s.data.length ≠ 16) : tryFormats s = none := by
  simp only [tryFormats, matchD10_none _ _ _ h10, matchD10R_none _ _ _ h10,
    matchDT16_none _ _ h16]
  rfl

theorem parseDateToISOCore_canonical (localISO : DateParts → String) (s : String)
    (h : isCanonicalISO s = true) : parseDateToISOCore localISO s = some s := by
  have h24 := isCanonicalISO_length s h
  rw [parseDateToISOCore, tryFormats_none s (by omega) (by omega)]
  simp [h]

theorem parseDateToISO_canonical (localISO : DateParts → String) (s : String)
    (h : isCanonicalISO s = true) : parseDateToISO localISO (some s) = some s := by
  simp only [parseDateToISO]
  rw [if_neg (isCanonicalISO_ne_empty s h)]
  exact parseDateToISOCore_canonical localISO s h

theorem csvScan_quoted_esc (rest2 field : List Char) (record : List String)
    (out : List (List String)) :
    csvScan ('"' :: '"' :: rest2) true field record out
      = csvScan rest2 true (field ++ ['"']) record out := by
  rw [csvScan.eq_2]
  simp

theorem csvScan_quoted_close (rest field : List Char) (record : List String)
    (out : List (List String)) (h : rest.head? ≠ some '"') :
    csvScan ('"' :: rest) true field record out = csvScan rest false field record out := by
  cases rest with
  | nil =>
    rw [csvScan.eq_4]
    · simp
    · intro r2 hr
      exact absurd hr (by simp)
    · intro r2 hr
      exact absurd hr (by simp)
  | cons c2 r2 =>
    have h2 : c2 ≠ '"' := by simpa using h
    by_cases hn : c2 = '\n'
    · subst hn
      rw [csvScan.eq_3]
      simp
    · rw [csvScan.eq_4]
      · simp
      · intro r3 hr
        injection hr with ha _
        exact h2 ha
      · intro r3 hr
        injection hr with ha _
        exact hn ha

theorem csvScan_quoted_char (c : Char) (rest field : List Char) (record : List String)
    (out : List (List String)) (hc : c ≠ '"') :
    csvScan (c :: rest) true field record out
      = csvScan rest true (field ++ [c]) record out := by
  cases rest with
  | nil =>
    rw [csvScan.eq_4]
    · simp [hc]
    · intro r2 hr
      exact absurd hr (by simp)
    · intro r2 hr
      exact absurd hr (by simp)
  | cons c2 r2 =>
    by_cases hq : c2 = '"'
    · subst hq
      rw [csvScan.eq_2]
      simp [hc]
    · by_cases hn : c2 = '\n'
      · subst hn
        rw [csvScan.eq_3]
        simp [hc]
      · rw [csvScan.eq_4]
        · simp [hc]
        · intro r3 hr
          injection hr with ha _
          exact hq ha
        · intro r3 hr
          injection hr with ha _
          exact hn ha

theorem csvScan_open_quote (rest : List Char) (record : List String)
    (out : List (List String)) :
    csvScan ('"' :: rest) false [] record out = csvScan rest true [] record out := by
  cases rest with
  | nil =>
    rw [csvScan.eq_4]
    · simp
    · intro r2 hr
      exact absurd hr (by simp)
    · intro r2 hr
      exact absurd hr (by simp)
  | cons c2 r2 =>
    by_cases hq : c2 = '"'
    · subst hq
      rw [csvScan.eq_2]
      simp
    · by_cases hn : c2 = '\n'
      · subst hn
        rw [csvScan.eq_3]
        simp
      · rw [csvScan.eq_4]
        · simp
        · intro r3 hr
          injection hr with ha _
          exact hq ha
        · intro r3 hr
          injection hr with ha _
          exact hn ha

theorem csvScan_comma (rest field : List Char) (record : List String)
    (out : List (List String)) :
    csvScan (',' :: rest) false field record out
      = csvScan rest false [] (record ++ [String.mk field]) out := by
  cases rest with
  | nil =>
    rw [csvScan.eq_4]
    · simp
    · intro r2 hr
      exact absurd hr (by simp)
    · intro r2 hr
      exact absurd hr (by simp)
  | cons c2 r2 =>
    by_cases hq : c2 = '"'
    · subst hq
      rw [csvScan.eq_2]
      simp
    · by_cases hn : c2 = '\n'
      · subst hn
        rw [csvScan.eq_3]
        simp
      · rw [csvScan.eq_4]
        · simp
        · intro r3 hr
          injection hr with ha _
          exact hq ha
        · intro r3 hr
          injection hr with ha _
          exact hn ha

theorem csvScan_crlf (rest2 field : List Char) (record : List String)
    (out : List (List String)) :
    csvScan ('\r' :: '\n' :: rest2) false field record out
      = csvScan rest2 false [] [] (out ++ [record ++ [String.mk field]]) := by
  rw [csvScan.eq_3]
  simp

theorem csvScan_other (c : Char) (rest field : List Char) (record : List String)
    (out : List (List String)) (hq : ¬ (c = '"' ∧ field = []))
    (hc : c ≠ ',') (hr : c ≠ '\r') (hn : c ≠ '\n') :
    csvScan (c :: rest) false field record out
      = csvScan rest false (field ++ [c]) record out := by
  cases rest with
  | nil =>
    rw [csvScan.eq_4]
    · simp [hq, hc, hr, hn]
    · intro r2 hrr
      exact absurd hrr (by simp)
    · intro r2 hrr
      exact absurd hrr (by simp)
  | cons c2 r2 =>
    by_cases hq2 : c2 = '"'
    · subst hq2
      rw [csvScan.eq_2]
      simp [hq, hc, hr, hn]
    · by_cases hn2 : c2 = '\n'
      · subst hn2
        rw [csvScan.eq_3]
        simp [hq, hc, hr, hn]
      · rw [csvScan.eq_4]
        · simp [hq, hc, hr, hn]
        · intro r3 hrr
          injection hrr with ha _
          exact hq2 ha
        · intro r3 hrr
          injection hrr with ha _
          exact hn2 ha

theorem scan_quoted (f rest acc : List Char) (record : List String)
    (out : List (List String)) (hrest : rest.head? ≠ some '"') :
    csvScan (escapeQ f ++ '"' :: rest) true acc record out
      = csvScan rest false (acc ++ f) record out := by
  induction f generalizing acc with
  | nil =>
    rw [show escapeQ [] ++ '"' :: rest = '"' :: rest from rfl, List.append_nil]
    exact csvScan_quoted_close rest acc record out hrest
  | cons x xs ih =>
    by_cases hx : x = '"'
    · subst hx
      rw [show escapeQ ('"' :: xs) ++ '"' :: rest
          = '"' :: '"' :: (escapeQ xs ++ '"' :: rest) from by simp [escapeQ]]
      rw [csvScan_quoted_esc, ih (acc ++ ['"'])]
      simp
    · rw [show escapeQ (x :: xs) ++ '"' :: rest
          = x :: (escapeQ xs ++ '"' :: rest) from by simp [escapeQ, hx]]
      rw [csvScan_quoted_char x _ acc record out hx, ih (acc ++ [x])]
      simp

theorem scan_unquoted (f rest acc : List Char) (record : List String)
    (out : List (List String))
    (hf : ∀ c ∈ f, c ≠ '"' ∧ c ≠ ',' ∧ c ≠ '\r' ∧ c ≠ '\n') :
    csvScan (f ++ rest) false acc record out = csvScan rest false (acc ++ f) record out := by
  induction f generalizing acc with
  | nil => simp
  | cons x xs ih =>
    obtain ⟨hq, hc, hr, hn⟩ := hf x (List.mem_cons_self x xs)
    rw [List.cons_append, csvScan_other x _ acc record out (fun hx => hq hx.1) hc hr hn,
      ih (acc ++ [x]) (fun c hcm => hf c (List.mem_cons_of_mem x hcm))]
    simp

theorem scan_field (f rest : List Char) (record : List String)
    (out : List (List String))
    (hrest : rest = [] ∨ rest.head? = some ',' ∨ rest.head? = some '\r') :
    csvScan (quoteField f ++ rest) false [] record out = csvScan rest false f record out := by
  have hrq : rest.head? ≠ some '"' := by
    rcases hrest with rfl | h | h
    · simp
    · rw [h]
      simp
    · rw [h]
      simp
  rw [quoteField]
  by_cases hq : needsQuote f = true
  · rw [if_pos hq,
      show ('"' :: escapeQ f ++ ['"']) ++ rest = '"' :: (escapeQ f ++ '"' :: rest) from by simp,
      csvScan_open_quote, scan_quoted f rest [] record out hrq]
    simp
  · rw [if_neg hq]
    have hq' : needsQuote f = false := by
      revert hq
      cases needsQuote f <;> simp
    rw [needsQuote] at hq'
    simp only [Bool.or_eq_false_iff] at hq'
    obtain ⟨⟨⟨⟨⟨h1, h2⟩, h3⟩, h4⟩, -⟩, -⟩ := hq'
    have hf : ∀ c ∈ f, c ≠ '"' ∧ c ≠ ',' ∧ c ≠ '\r' ∧ c ≠ '\n' := by
      intro c hcm
      refine ⟨?_, ?_, ?_, ?_⟩ <;> intro he <;> subst he
      · have hcc := (contains_iff_mem _ f).mpr hcm
        rw [h1] at hcc
        exact Bool.false_ne_true hcc
      · have hcc := (contains_iff_mem _ f).mpr hcm
        rw [h2] at hcc
        exact Bool.false_ne_true hcc
      · have hcc := (contains_iff_mem _ f).mpr hcm
        rw [h3] at hcc
        exact Bool.false_ne_true hcc
      · have hcc := (contains_iff_mem _ f).mpr hcm
        rw [h4] at hcc
        exact Bool.false_ne_true hcc
    rw [scan_unquoted f rest [] record out hf]
    simp

theorem unparseRecord_cons_ne (f : List Char) (fs : List (List Char)) (h : fs ≠ []) :
    unparseRecord (f :: fs) = quoteField f ++ ',' :: unparseRecord fs := by
  cases fs with
  | nil => exact absurd rfl h
  | cons g gs => rfl

theorem unparseCSV_cons_ne (r : List (List Char)) (rs : List (List (List Char)))
    (h : rs ≠ []) :
    unparseCSV (r :: rs) = unparseRecord r ++ '\r' :: '\n' :: unparseCSV rs := by
  cases rs with
  | nil => exact absurd rfl h
  | cons a b => rfl

theorem scan_record (fs : List (List Char)) (lf : List Char) (rest : List Char)
    (record : List String) (out : List (List String))
    (hrest : rest = [] ∨ rest.head? = some '\r') :
    csvScan (unparseRecord (fs ++ [lf]) ++ rest) false [] record out
      = csvScan rest false lf (record ++ fs.map (fun f => String.mk f)) out := by
  induction fs generalizing record with
  | nil =>
    rw [show ([] : List (List Char)) ++ [lf] = [lf] from rfl,
      show unparseRecord [lf] = quoteField lf from rfl,
      scan_field lf rest record out
        (by rcases hrest with rfl | h; exacts [Or.inl rfl, Or.inr (Or.inr h)])]
    simp
  | cons g gs ih =>
    rw [List.cons_append, unparseRecord_cons_ne g (gs ++ [lf]) (by simp),
      show (quoteField g ++ ',' :: unparseRecord (gs ++ [lf])) ++ rest
        = quoteField g ++ (',' :: (unparseRecord (gs ++ [lf]) ++ rest)) from by simp,
      scan_field g (',' :: (unparseRecord (gs ++ [lf]) ++ rest)) record out
        (Or.inr (Or.inl rfl)),
      csvScan_comma,
      ih (record ++ [String.mk g])]
    simp

theorem scan_rows (r : List (List Char)) (rs : List (List (List Char)))
    (out : List (List String)) (hr : r ≠ []) (hrs : ∀ x ∈ rs, x ≠ []) :
    csvScan (unparseCSV (r :: rs)) false [] [] out
      = out ++ (r :: rs).map (fun rec => rec.map (fun f => String.mk f)) := by
  induction rs generalizing r out with
  | nil =>
    rcases List.eq_nil_or_concat r with rfl | ⟨fs, lf, rfl⟩
    · exact absurd rfl hr
    simp only [List.concat_eq_append] at hr ⊢
    rw [show unparseCSV [fs ++ [lf]] = unparseRecord (fs ++ [lf]) from rfl]
    have h2 := scan_record fs lf [] [] out (Or.inl rfl)
    rw [List.append_nil] at h2
    rw [h2, csvScan.eq_1]
    simp
  | cons r2 rs' ih =>
    rcases List.eq_nil_or_concat r with rfl | ⟨fs, lf, rfl⟩
    · exact absurd rfl hr
    simp only [List.concat_eq_append] at hr ⊢
    rw [unparseCSV_cons_ne _ _ (by simp),
      scan_record fs lf ('\r' :: '\n' :: unparseCSV (r2 :: rs')) [] out (Or.inr rfl),
      csvScan_crlf,
      ih r2 _ (hrs r2 (List.mem_cons_self r2 rs'))
        (fun x hx => hrs x (List.mem_cons_of_mem _ hx))]
    simp

theorem mk_data (s : String) : String.mk s.data = s := rfl

theorem normalizeRow_saved (localISO : DateParts → String) (t : Tx) (amountStr : String)
    (htype : t.type = "income" ∨ t.type = "expense")
    (hpos : 0 < t.amount)
    (hcat : jsTrim t.category = t.category) (hcatne : t.category ≠ "")
    (hdate : isCanonicalISO t.date = true)
    (hnote : jsTrim t.note = t.note)
    (hAmt : parseAmountNumber (some amountStr) = some t.amount) :
    normalizeRow localISO
        [("type", t.type), ("amount", amountStr), ("category", t.category),
          ("date", t.date), ("note", t.note)]
      = ⟨t.type, some t.amount, t.category, some t.date, t.note, true⟩ := by
  have g1 : getField [("type", t.type), ("amount", amountStr), ("category", t.category),
      ("date", t.date), ("note", t.note)] ("type") = some t.type := rfl
  have g2 : getField [("type", t.type), ("amount", amountStr), ("category", t.category),
      ("date", t.date), ("note", t.note)] ("amount") = some amountStr := rfl
  have g3 : getField [("type", t.type), ("amount", amountStr), ("category", t.category),
      ("date", t.date), ("note", t.note)] ("category") = some t.category := rfl
  have g4 : getField [("type", t.type), ("amount", amountStr), ("category", t.category),
      ("date", t.date), ("note", t.note)] ("date") = some t.date := rfl
  have g5 : getField [("type", t.type), ("amount", amountStr), ("category", t.category),
      ("date", t.date), ("note", t.note)] ("note") = some t.note := rfl
  have htypeEq : (if strToLower (jsTrim t.type) = "income" then "income" else "expense")
      = t.type := by
    rcases htype with h | h <;> rw [h] <;> decide
  simp only [normalizeRow, g1, g2, g3, g4, g5, Option.getD_some]
  rw [hAmt, parseDateToISO_canonical localISO t.date hdate, htypeEq,
    if_neg hcatne, hcat, if_neg hcatne, hnote]
  simp [hpos]

/-- C4: exporting saved transactions to CSV and normalizing that CSV back
through the import path reproduces `{type, amount, category, date, note}`
of every record, each marked `valid`; `id` and `createdAt` are not
exported.  `render` is the JS number-to-string conversion of the exported
amount: for the plain decimal numerals it produces, re-parsing returns the
exported value, which is the stated hypothesis. -/
theorem export_import_roundtrip (localISO : DateParts → String) (render : ℚ → String)
    (txs : List Tx)
    (hsaved : ∀ t ∈ txs, SavedTx t)
    (hrender : ∀ t ∈ txs, parseAmountNumber (some (render t.amount)) = some t.amount) :
    importNormalize localISO (exportCSV render txs)
      = txs.map (fun t => ⟨t.type, some t.amount, t.category, some t.date, t.note, true⟩) := by
  have hscan := scan_rows
    [("type" : String).data, ("amount" : String).data, ("category" : String).data,
      ("date" : String).data, ("note" : String).data]
    (txs.map (fun t => [t.type.data, (render t.amount).data, t.category.data,
      t.date.data, t.note.data]))
    [] (by simp)
    (by
      intro x hx
      simp only [List.mem_map] at hx
      obtain ⟨t, -, rfl⟩ := hx
      simp)
  have hmap : List.map (fun rec => List.map (fun f => String.mk f) rec)
      ([("type" : String).data, ("amount" : String).data, ("category" : String).data,
          ("date" : String).data, ("note" : String).data]
        :: txs.map (fun t => [t.type.data, (render t.amount).data, t.category.data,
          t.date.data, t.note.data]))
      = (["type", "amount", "category", "date", "note"] : List String)
        :: txs.map (fun t => [t.type, render t.amount, t.category, t.date, t.note]) := by
    rw [List.map_cons, List.map_map]
    congr 1
  have hfil : List.filter (fun r => r ≠ [""])
      ((["type", "amount", "category", "date", "note"] : List String)
        :: txs.map (fun t => [t.type, render t.amount, t.category, t.date, t.note]))
      = (["type", "amount", "category", "date", "note"] : List String)
        :: txs.map (fun t => [t.type, render t.amount, t.category, t.date, t.note]) := by
    apply List.filter_eq_self.mpr
    intro r hr
    rcases List.mem_cons.mp hr with rfl | hr2
    · simp
    · obtain ⟨t, -, rfl⟩ := List.mem_map.mp hr2
      simp
  have hparse : parseCSV (exportCSV render txs)
      = (["type", "amount", "category", "date", "note"] : List String)
        :: txs.map (fun t => [t.type, render t.amount, t.category, t.date, t.note]) := by
    rw [parseCSV, show (exportCSV render txs).data
        = unparseCSV (
            [("type" : String).data, ("amount" : String).data, ("category" : String).data,
              ("date" : String).data, ("note" : String).data]
            :: txs.map (fun t => [t.type.data, (render t.amount).data, t.category.data,
              t.date.data, t.note.data])) from rfl,
      hscan, List.nil_append, hmap, hfil]
  have hrows : importRows (exportCSV render txs)
      = txs.map (fun t => [("type", t.type), ("amount", render t.amount),
          ("category", t.category), ("date", t.date), ("note", t.note)]) := by
    rw [importRows, hparse]
    show (txs.map (fun t => [t.type, render t.amount, t.category, t.date, t.note])).map
        (fun r => (["type", "amount", "category", "date", "note"] : List String).zip r)
      = txs.map (fun t => [("type", t.type), ("amount", render t.amount),
          ("category", t.category), ("date", t.date), ("note", t.note)])
    rw [List.map_map]
    rfl
  rw [importNormalize, hrows, normalizeAll, List.map_map]
  refine List.map_congr_left (fun t ht => ?_)
  obtain ⟨htype, hpos, hcat, hcatne, hdate, hnote⟩ := hsaved t ht
  simp only [Function.comp]
  exact normalizeRow_saved localISO t (render t.amount) htype hpos hcat hcatne hdate hnote
    (hrender t ht)

/-- Witness for C4: a one-record set survives the export and import round
trip with every field reproduced and the row valid. -/
theorem export_import_roundtrip_witness :
    importNormalize (fun _ => "")
        (exportCSV (fun _ => "26")
          [⟨"expense", 26, "Groceries", "2024-02-01T12:34:56.000Z", "weekly shop"⟩])
      = [⟨"expense", some 26, "Groceries", some "2024-02-01T12:34:56.000Z",
          "weekly shop", true⟩] := by
  have hr : parseAmountNumber (some ("26")) = some (26 : ℚ) := by
    have hn : normalizeAmountString (some ("26")) = "26" := by decide
    rw [parseAmountNumber, hn]
    have hf : parseFloatM "26"
        = some ((digitsVal ['2', '6'] : ℚ)
          + (digitsVal [] : ℚ) / ((10 : ℚ) ^ (0 : Nat))) := rfl
    rw [hf, show digitsVal ['2', '6'] = 26 from rfl, show digitsVal [] = 0 from rfl]
    norm_num
  have h := export_import_roundtrip (fun _ => "") (fun _ => "26")
    [⟨"expense", 26, "Groceries", "2024-02-01T12:34:56.000Z", "weekly shop"⟩]
    (by
      intro t ht
      rw [List.mem_singleton] at ht
      subst ht
      exact ⟨Or.inr rfl, by norm_num, by decide, by decide, by decide, by decide⟩)
    (by
      intro t ht
      rw [List.mem_singleton] at ht
      subst ht
      exact hr)
  simpa using h

end JinoFin
